import Mathlib

/-!
Verification of the core of the `garde` validation engine: the nested
error-report data structure and its builders, the rule predicates, and the
recursive validate dispatch protocol. Definitions follow the crate
documentation in `garde/src/lib.rs` and the design document; parts of the
implementation that only exist outside the sampled sources are modelled
from the design document and marked as such.
-/

namespace Garde

/-- An `Error` is an immutable record holding one human-readable message
string and no other state. -/
structure Error where
  message : String
deriving Repr, DecidableEq

/-- A path segment: either a field-name key or a numeric index. -/
inductive Segment where
  | key (name : String)
  | index (i : Nat)
deriving Repr, DecidableEq

/-- `Path`: an ordered, immutable sequence of segments. -/
structure Path where
  segments : List Segment
deriving Repr, DecidableEq

/-- The empty path. -/
def Path.empty : Path := ⟨[]⟩

/-- Extending a path yields a new `Path` sharing the existing prefix;
the original path is never mutated. -/
def Path.join (p : Path) (s : Segment) : Path := ⟨p.segments ++ [s]⟩

/-- Modelled from the spec: the `Errors` report type (its source file
`garde/src/error.rs` is not in the sample). A tagged variant over a flat
list of leaf errors, an ordered index-to-child mapping, and an ordered
name-to-child mapping. -/
inductive Errors where
  | simple (errors : List Error)
  | list (entries : List (Nat × Errors))
  | fields (entries : List (String × Errors))
deriving Repr

/-- Total number of leaf `Error`s contained transitively in a report. -/
def Errors.leafCount : Errors → Nat
  | .simple es => es.length
  | .list [] => 0
  | .list ((_, c) :: rest) => c.leafCount + (Errors.list rest).leafCount
  | .fields [] => 0
  | .fields ((_, c) :: rest) => c.leafCount + (Errors.fields rest).leafCount
termination_by r => sizeOf r
decreasing_by all_goals (simp; try omega)

/-- Modelled from the spec: `Errors::is_empty`, the emptiness check used
by the builders: a report is empty when its own container is empty. -/
def Errors.isEmpty : Errors → Bool
  | .simple es => es.isEmpty
  | .list entries => entries.isEmpty
  | .fields entries => entries.isEmpty

/-- Well-formedness invariant maintained by the builders: every child
stored in an indexed or keyed report is itself non-empty and well-formed. -/
def Errors.wf : Errors → Bool
  | .simple _ => true
  | .list [] => true
  | .list ((_, c) :: rest) => !c.isEmpty && c.wf && (Errors.list rest).wf
  | .fields [] => true
  | .fields ((_, c) :: rest) => !c.isEmpty && c.wf && (Errors.fields rest).wf
termination_by r => sizeOf r
decreasing_by all_goals (simp; try omega)

/-- Modelled from the spec: the flat builder `push` appends one leaf
`Error` at the end. -/
def SimpleBuilder.push (es : List Error) (e : Error) : List Error := es ++ [e]

/-- Modelled from the spec and the crate docs: `ListErrorBuilder::push`
ignores an empty child report; otherwise it records the child under the
given index, preserving insertion order. -/
def ListErrorBuilder.push (entries : List (Nat × Errors)) (i : Nat)
    (child : Errors) : List (Nat × Errors) :=
  if child.isEmpty then entries else entries ++ [(i, child)]

/-- Modelled from the spec and the crate docs: `FieldsErrorBuilder::insert`
ignores an empty child report; otherwise it records the child under the
given field name, preserving insertion order. -/
def FieldsErrorBuilder.insert (entries : List (String × Errors)) (name : String)
    (child : Errors) : List (String × Errors) :=
  if child.isEmpty then entries else entries ++ [(name, child)]

lemma Errors.isEmpty_true_leafCount {r : Errors} (h : r.isEmpty = true) :
    r.leafCount = 0 := by
  cases r with
  | simple es => cases es <;> simp_all [Errors.isEmpty, Errors.leafCount]
  | list entries => cases entries <;> simp_all [Errors.isEmpty, Errors.leafCount]
  | fields entries => cases entries <;> simp_all [Errors.isEmpty, Errors.leafCount]

lemma Errors.wf_isEmpty_false_leafCount :
    ∀ (r : Errors), r.wf = true → r.isEmpty = false → r.leafCount ≠ 0 := by
  intro r
  induction r using Errors.wf.induct with
  | case1 es =>
    intro _ hne
    simp [Errors.isEmpty] at hne
    simp [Errors.leafCount, hne]
  | case2 =>
    intro _ hne
    simp [Errors.isEmpty] at hne
  | case3 i c rest ih1 ih2 =>
    intro hwf _
    simp only [Errors.wf, Bool.and_eq_true, Bool.not_eq_true'] at hwf
    obtain ⟨⟨hce, hcw⟩, _⟩ := hwf
    have hc := ih1 hcw hce
    simp only [Errors.leafCount]
    omega
  | case4 =>
    intro _ hne
    simp [Errors.isEmpty] at hne
  | case5 k c rest ih1 ih2 =>
    intro hwf _
    simp only [Errors.wf, Bool.and_eq_true, Bool.not_eq_true'] at hwf
    obtain ⟨⟨hce, hcw⟩, _⟩ := hwf
    have hc := ih1 hcw hce
    simp only [Errors.leafCount]
    omega

lemma Errors.wf_isEmpty_iff {r : Errors} (h : r.wf = true) :
    r.isEmpty = true ↔ r.leafCount = 0 := by
  constructor
  · exact Errors.isEmpty_true_leafCount
  · intro hlc
    by_contra hne
    exact Errors.wf_isEmpty_false_leafCount r h (by simp_all) hlc

lemma Errors.wf_list_append {i : Nat} {child : Errors}
    (hne : child.isEmpty = false) (hc : child.wf = true) :
    ∀ entries, (Errors.list entries).wf = true →
      (Errors.list (entries ++ [(i, child)])).wf = true := by
  intro entries
  induction entries with
  | nil =>
    intro _
    simp [Errors.wf, hne, hc]
  | cons e rest ih =>
    obtain ⟨a, b⟩ := e
    intro he
    simp only [Errors.wf, Bool.and_eq_true] at he
    obtain ⟨⟨h1, h2⟩, h3⟩ := he
    simp only [List.cons_append, Errors.wf, Bool.and_eq_true]
    exact ⟨⟨h1, h2⟩, ih h3⟩

lemma Errors.wf_fields_append {name : String} {child : Errors}
    (hne : child.isEmpty = false) (hc : child.wf = true) :
    ∀ entries, (Errors.fields entries).wf = true →
      (Errors.fields (entries ++ [(name, child)])).wf = true := by
  intro entries
  induction entries with
  | nil =>
    intro _
    simp [Errors.wf, hne, hc]
  | cons e rest ih =>
    obtain ⟨a, b⟩ := e
    intro he
    simp only [Errors.wf, Bool.and_eq_true] at he
    obtain ⟨⟨h1, h2⟩, h3⟩ := he
    simp only [List.cons_append, Errors.wf, Bool.and_eq_true]
    exact ⟨⟨h1, h2⟩, ih h3⟩

lemma ListErrorBuilder.push_wf {entries : List (Nat × Errors)} {i : Nat}
    {child : Errors} (he : (Errors.list entries).wf = true)
    (hc : child.wf = true) :
    (Errors.list (ListErrorBuilder.push entries i child)).wf = true := by
  unfold ListErrorBuilder.push
  by_cases hemp : child.isEmpty = true
  · simpa [hemp] using he
  · rw [if_neg hemp]
    exact Errors.wf_list_append (by simp_all) hc entries he

lemma FieldsErrorBuilder.insert_wf {entries : List (String × Errors)}
    {name : String} {child : Errors} (he : (Errors.fields entries).wf = true)
    (hc : child.wf = true) :
    (Errors.fields (FieldsErrorBuilder.insert entries name child)).wf = true := by
  unfold FieldsErrorBuilder.insert
  by_cases hemp : child.isEmpty = true
  · simpa [hemp] using he
  · rw [if_neg hemp]
    exact Errors.wf_fields_append (by simp_all) hc entries he

/-- A rule is a pure predicate on a value: it either passes (`none`) or
produces one leaf `Error` with a fixed or parameterized message. -/
def Rule (α : Type) : Type := α → Option Error

/-- The logical unit count of a text value: the number of Unicode scalar
values, `.chars().count()` in the source, not the byte count. -/
def strLength (s : String) : Nat := s.data.length

/-- The byte count of a text value under UTF-8, `.len()` in Rust. -/
def byteLength (s : String) : Nat := s.data.foldl (fun n c => n + c.utf8Size) 0

/-- Modelled from the spec: the shared bound check of the `length` and
`byte_length` rules: the count lies in `min..=max`, both bounds inclusive,
an omitted bound unconstrained. -/
def withinBounds (min max : Option Nat) (n : Nat) : Bool :=
  (match min with
   | none => true
   | some m => decide (m ≤ n)) &&
  (match max with
   | none => true
   | some m => decide (n ≤ m))

/-- Modelled from the spec: the bound check of the `range` rule over an
ordered numeric value, both bounds inclusive. -/
def withinRange (min max : Option Int) (n : Int) : Bool :=
  (match min with
   | none => true
   | some m => decide (m ≤ n)) &&
  (match max with
   | none => true
   | some m => decide (n ≤ m))

/-- Modelled from the spec: the `ascii` rule. -/
def asciiRule : Rule String := fun s =>
  if s.data.all (fun c => c.toNat ≤ 127) then none else some ⟨"not ascii"⟩

/-- Modelled from the spec: the `alphanumeric` rule. -/
def alphanumericRule : Rule String := fun s =>
  if s.data.all Char.isAlphanum then none else some ⟨"not alphanumeric"⟩

/-- Modelled from the spec: the `length` rule on text, counting Unicode
scalar values. -/
def lengthRule (min max : Option Nat) : Rule String := fun s =>
  if withinBounds min max (strLength s) then none
  else some ⟨"length out of bounds"⟩

/-- Modelled from the spec: the `byte_length` rule on text, counting
bytes. -/
def byteLengthRule (min max : Option Nat) : Rule String := fun s =>
  if withinBounds min max (byteLength s) then none
  else some ⟨"byte length out of bounds"⟩

/-- Modelled from the spec: the `length` rule on a sequence, counting
elements. -/
def lengthListRule {α : Type} (min max : Option Nat) : Rule (List α) := fun xs =>
  if withinBounds min max xs.length then none
  else some ⟨"length out of bounds"⟩

/-- Modelled from the spec: the `range` rule on an ordered numeric value. -/
def rangeRule (min max : Option Int) : Rule Int := fun n =>
  if withinRange min max n then none else some ⟨"not in range"⟩

/-- Modelled from the spec: the `contains` rule, a literal substring test. -/
def containsRule (pat : String) : Rule String := fun s =>
  if s.data.tails.any (fun t => pat.data.isPrefixOf t) then none
  else some ⟨"does not contain pattern"⟩

/-- Modelled from the spec: the `prefix` rule, a literal test at the start. -/
def startsWithRule (pat : String) : Rule String := fun s =>
  if pat.data.isPrefixOf s.data then none else some ⟨"missing expected prefix value"⟩

/-- Modelled from the spec: the `suffix` rule, a literal test at the end. -/
def endsWithRule (pat : String) : Rule String := fun s =>
  if pat.data.isSuffixOf s.data then none else some ⟨"missing expected suffix value"⟩

/-- Modelled from the spec: the `pattern` rule, parameterized by an opaque
matcher capability `test : text → Bool`. -/
def patternRule (test : String → Bool) : Rule String := fun s =>
  if test s then none else some ⟨"does not match pattern"⟩

/-- Modelled from the tests in `garde/tests/rules/option.rs`: the
`matches(other)` rule compares the value against the value of another
field of the same composite. -/
def matchesRule (other : Option String) : Rule String := fun s =>
  if other = some s then none else some ⟨"does not match expected value"⟩

/-- Modelled from the spec: run every configured rule on a present value
in declared order; every failing rule contributes its own leaf error and
no failure suppresses the evaluation of later rules. -/
def runRules {α : Type} : List (Rule α) → α → List Error
  | [], _ => []
  | r :: rest, v =>
    match r v with
    | none => runRules rest v
    | some e => SimpleBuilder.push [] e ++ runRules rest v

/-- Modelled from the spec: per-field dispatch for an optional value.
When the value is absent, a configured `required` records exactly one
leaf error and no other rule runs; without `required`, absence records
nothing. When the value is present, all rules run. -/
def validateOptionalField {α : Type} (requiresPresence : Bool)
    (rules : List (Rule α)) (v : Option α) : List Error :=
  match v with
  | none => if requiresPresence then [⟨"value is required"⟩] else []
  | some x => runRules rules x

/-- Modelled from the spec: the recursive worker of the `inner` dispatch:
for element `i` of a sequence, wrap the inner rule outcomes in a flat
child report and record it under index `i` through the indexed builder. -/
def validateInner {α : Type} (innerRules : List (Rule α))
    (entries : List (Nat × Errors)) (i : Nat) : List α → List (Nat × Errors)
  | [] => entries
  | x :: rest =>
    validateInner innerRules
      (ListErrorBuilder.push entries i (.simple (runRules innerRules x)))
      (i + 1) rest

/-- Modelled from the spec: a sequence-valued field with its own rules and
an `inner` rule set: the own rules apply once to the container as a whole;
independently the inner rules apply to each element at its index. -/
def validateSeqField {α : Type} (ownRules : List (Rule (List α)))
    (innerRules : List (Rule α)) (xs : List α) :
    List Error × List (Nat × Errors) :=
  (runRules ownRules xs, validateInner innerRules [] 0 xs)

/-- Modelled from the spec: the `validate` entry point: build the root
report through the recursive worker (here abstracted as a pure function
from context and value to a report), then convert emptiness of the report
into the success or failure outcome; failure carries the report. -/
def validate {α γ : Type} (validate_into : γ → α → Errors) (ctx : γ)
    (v : α) : Except Errors Unit :=
  let report := validate_into ctx v
  if report.isEmpty then .ok () else .error report

/-- Two calls of `validate` on the unchanged value and context. -/
def validateTwice {α γ : Type} (validate_into : γ → α → Errors) (ctx : γ)
    (v : α) : Except Errors Unit × Except Errors Unit :=
  (validate validate_into ctx v, validate validate_into ctx v)

/-- The pre-state of a validation call: the value being validated and the
context object threaded through the call tree. -/
structure CallState (α γ : Type) where
  value : α
  ctx : γ

/-- Modelled from the spec: a whole validation call as a state transformer.
The engine reads the value and the context through shared references and
never writes them, so the call returns the state unchanged next to the
outcome. -/
def validateCall {α γ : Type} (validate_into : γ → α → Errors)
    (s : CallState α γ) : CallState α γ × Except Errors Unit :=
  (s, validate validate_into s.ctx s.value)

lemma runRules_eq_filterMap {α : Type} (rules : List (Rule α)) (v : α) :
    runRules rules v = rules.filterMap (fun r => r v) := by
  induction rules with
  | nil => simp [runRules]
  | cons r rest ih =>
    cases h : r v with
    | none => simp [runRules, h, ih]
    | some e => simp [runRules, h, ih, SimpleBuilder.push]

lemma runRules_length {α : Type} (rules : List (Rule α)) (v : α) :
    (runRules rules v).length = rules.countP (fun r => (r v).isSome) := by
  induction rules with
  | nil => simp [runRules]
  | cons r rest ih =>
    cases h : r v with
    | none => simp [runRules, h, ih, List.countP_cons]
    | some e => simp [runRules, h, ih, SimpleBuilder.push, List.countP_cons]

lemma validateInner_eq {α : Type} (innerRules : List (Rule α)) :
    ∀ (xs : List α) (entries : List (Nat × Errors)) (i : Nat),
      validateInner innerRules entries i xs
        = entries ++ (List.enumFrom i xs).filterMap (fun e =>
            if (runRules innerRules e.2).isEmpty then none
            else some (e.1, Errors.simple (runRules innerRules e.2))) := by
  intro xs
  induction xs with
  | nil => intro entries i; simp [validateInner]
  | cons x rest ih =>
    intro entries i
    simp only [validateInner, List.enumFrom, List.filterMap_cons]
    rw [ih]
    by_cases h : (runRules innerRules x).isEmpty = true
    · simp [ListErrorBuilder.push, Errors.isEmpty, h]
    · have h' : (runRules innerRules x).isEmpty = false := by simp_all
      simp [ListErrorBuilder.push, Errors.isEmpty, h']

lemma validateInner_length {α : Type} (innerRules : List (Rule α)) :
    ∀ (xs : List α) (entries : List (Nat × Errors)) (i : Nat),
      (validateInner innerRules entries i xs).length
        = entries.length + xs.countP (fun x => !(runRules innerRules x).isEmpty) := by
  intro xs
  induction xs with
  | nil => intro entries i; simp [validateInner]
  | cons x rest ih =>
    intro entries i
    simp only [validateInner, List.countP_cons]
    rw [ih]
    by_cases h : (runRules innerRules x).isEmpty = true
    · simp [ListErrorBuilder.push, Errors.isEmpty, h]
    · have h' : (runRules innerRules x).isEmpty = false := by simp_all
      simp [ListErrorBuilder.push, Errors.isEmpty, h']
      omega

lemma byteLength_foldl (l : List Char) :
    ∀ n : Nat, l.foldl (fun n c => n + c.utf8Size) n
      = n + (l.map Char.utf8Size).sum := by
  induction l with
  | nil => intro n; simp
  | cons c rest ih =>
    intro n
    simp only [List.foldl_cons, List.map_cons, List.sum_cons]
    rw [ih]
    omega

lemma strLength_le_byteLength (s : String) : strLength s ≤ byteLength s := by
  unfold strLength byteLength
  rw [byteLength_foldl]
  induction s.data with
  | nil => simp
  | cons c rest ih =>
    simp only [List.length_cons, List.map_cons, List.sum_cons]
    have := Char.utf8Size_pos c
    omega

/-- C1: for every value and context, `validate` returns success iff the
report built during that call is empty; when it fails, the failure outcome
carries exactly that non-empty report, and success and failure are the
only outcomes. -/
theorem validate_ok_iff_empty_report :
    ∀ (α γ : Type) (vi : γ → α → Errors) (ctx : γ) (v : α),
      (validate vi ctx v = .ok () ↔ (vi ctx v).isEmpty = true) ∧
      (validate vi ctx v = .error (vi ctx v) ↔ (vi ctx v).isEmpty = false) ∧
      (∀ r : Errors, validate vi ctx v = .error r →
        r = vi ctx v ∧ r.isEmpty = false) := by
  intro α γ vi ctx v
  unfold validate
  by_cases h : (vi ctx v).isEmpty = true
  · simp [h]
  · have h' : (vi ctx v).isEmpty = false := by simp_all
    simp only [h', Bool.false_eq_true, if_false]
    refine ⟨by simp, by simp, ?_⟩
    intro r hr
    simp only [Except.error.injEq] at hr
    subst hr
    exact ⟨rfl, h'⟩

/-- Witness for C1 at a concrete validator and value. -/
theorem validate_ok_iff_empty_report_witness :
    validate (fun (_ : Unit) (s : String) => Errors.simple (runRules [asciiRule] s))
        () "é" = .error (Errors.simple [⟨"not ascii"⟩]) ∧
    Errors.simple [⟨"not ascii"⟩]
        = (fun (_ : Unit) (s : String) => Errors.simple (runRules [asciiRule] s)) () "é" ∧
    (Errors.simple [⟨"not ascii"⟩]).isEmpty = false :=
  ⟨rfl,
    (validate_ok_iff_empty_report String Unit
      (fun _ s => Errors.simple (runRules [asciiRule] s)) () "é").2.2
      (Errors.simple [⟨"not ascii"⟩]) rfl⟩

/-- C2: for a present value with configured rules, every rule is evaluated
in declared order, every failing rule contributes its own leaf error at
the field, and no failure suppresses later rules; on the username
scenario, the short input fails only the length rule while the non-ASCII
one-scalar input fails both length and ascii. -/
theorem all_rules_evaluated_in_order :
    (∀ (α : Type) (rules : List (Rule α)) (v : α),
      runRules rules v = rules.filterMap (fun r => r v) ∧
      (runRules rules v).length = rules.countP (fun r => (r v).isSome)) ∧
    runRules [lengthRule (some 3) (some 25), asciiRule] "ab"
      = [⟨"length out of bounds"⟩] ∧
    runRules [lengthRule (some 3) (some 25), asciiRule] "é"
      = [⟨"length out of bounds"⟩, ⟨"not ascii"⟩] :=
  ⟨fun α rules v => ⟨runRules_eq_filterMap rules v, runRules_length rules v⟩,
    rfl, rfl⟩

/-- C3: the indexed and keyed builders ignore an empty child, a flat
report is always well-formed, the builder operations preserve
well-formedness, and for well-formed reports emptiness coincides with
containing zero leaf errors transitively. -/
theorem empty_child_never_attached :
    (∀ (entries : List (Nat × Errors)) (i : Nat) (child : Errors),
        child.isEmpty = true → ListErrorBuilder.push entries i child = entries) ∧
    (∀ (entries : List (String × Errors)) (name : String) (child : Errors),
        child.isEmpty = true → FieldsErrorBuilder.insert entries name child = entries) ∧
    (∀ r : Errors, r.wf = true → (r.isEmpty = true ↔ r.leafCount = 0)) ∧
    (∀ (es : List Error) (e : Error),
        (Errors.simple (SimpleBuilder.push es e)).wf = true) ∧
    (∀ (entries : List (Nat × Errors)) (i : Nat) (child : Errors),
        (Errors.list entries).wf = true → child.wf = true →
        (Errors.list (ListErrorBuilder.push entries i child)).wf = true) ∧
    (∀ (entries : List (String × Errors)) (name : String) (child : Errors),
        (Errors.fields entries).wf = true → child.wf = true →
        (Errors.fields (FieldsErrorBuilder.insert entries name child)).wf = true) := by
  refine ⟨?_, ?_, ?_, ?_, ?_, ?_⟩
  · intro entries i child h
    simp [ListErrorBuilder.push, h]
  · intro entries name child h
    simp [FieldsErrorBuilder.insert, h]
  · intro r h
    exact Errors.wf_isEmpty_iff h
  · intro es e
    simp [Errors.wf]
  · intro entries i child he hc
    exact ListErrorBuilder.push_wf he hc
  · intro entries name child he hc
    exact FieldsErrorBuilder.insert_wf he hc

/-- Witness for C3 with a concrete empty child, a concrete non-empty
report and concrete builder inputs. -/
theorem empty_child_never_attached_witness :
    ((Errors.simple []).isEmpty = true ∧
      ListErrorBuilder.push [(0, Errors.simple [⟨"m"⟩])] 1 (Errors.simple [])
        = [(0, Errors.simple [⟨"m"⟩])]) ∧
    (FieldsErrorBuilder.insert [] "f" (Errors.simple []) = []) ∧
    ((Errors.list [(0, Errors.simple [⟨"m"⟩])]).wf = true ∧
      ((Errors.list [(0, Errors.simple [⟨"m"⟩])]).isEmpty = true ↔
        (Errors.list [(0, Errors.simple [⟨"m"⟩])]).leafCount = 0)) ∧
    (Errors.simple (SimpleBuilder.push [] ⟨"m"⟩)).wf = true ∧
    (Errors.list (ListErrorBuilder.push [] 0 (Errors.simple [⟨"m"⟩]))).wf = true ∧
    (Errors.fields (FieldsErrorBuilder.insert [] "f" (Errors.simple [⟨"m"⟩]))).wf = true :=
  ⟨⟨rfl, empty_child_never_attached.1 _ 1 _ rfl⟩,
    empty_child_never_attached.2.1 [] "f" _ rfl,
    ⟨by simp [Errors.wf, Errors.isEmpty],
      empty_child_never_attached.2.2.1 _ (by simp [Errors.wf, Errors.isEmpty])⟩,
    empty_child_never_attached.2.2.2.1 [] ⟨"m"⟩,
    empty_child_never_attached.2.2.2.2.1 [] 0 _ (by simp [Errors.wf])
      (by simp [Errors.wf]),
    empty_child_never_attached.2.2.2.2.2 [] "f" _ (by simp [Errors.wf])
      (by simp [Errors.wf])⟩

/-- C4: on an absent optional value, a configured `required` records
exactly one leaf error with message "value is required" and no other rule
of the field is evaluated; without `required`, absence records nothing no
matter which rules are configured. -/
theorem required_on_absent_short_circuits :
    (∀ (α : Type) (rules : List (Rule α)),
        validateOptionalField true rules none = [⟨"value is required"⟩]) ∧
    (∀ (α : Type) (rules : List (Rule α)),
        validateOptionalField false rules none = ([] : List Error)) ∧
    (∀ (α : Type) (b : Bool) (rules1 rules2 : List (Rule α)),
        validateOptionalField b rules1 none = validateOptionalField b rules2 none) ∧
    validateOptionalField true [lengthRule (some 1) none] (none : Option String)
      = [⟨"value is required"⟩] ∧
    validateOptionalField true [lengthRule (some 1) none] (some "")
      = [⟨"length out of bounds"⟩] :=
  ⟨fun α rules => rfl, fun α rules => rfl,
    fun α b rules1 rules2 => by cases b <;> rfl, rfl, rfl⟩

/-- C5: the bounds of the `length` and `range` rules are inclusive on
both ends: a count or magnitude of exactly `min` or `max` passes, while
`min - 1` and `max + 1` fail. -/
theorem bounds_are_inclusive (lmin lmax : Nat) (rmin rmax : Int)
    (h1 : 1 ≤ lmin) (h2 : lmin ≤ lmax) (h3 : rmin ≤ rmax) :
    withinBounds (some lmin) (some lmax) lmin = true ∧
    withinBounds (some lmin) (some lmax) lmax = true ∧
    withinBounds (some lmin) (some lmax) (lmin - 1) = false ∧
    withinBounds (some lmin) (some lmax) (lmax + 1) = false ∧
    withinRange (some rmin) (some rmax) rmin = true ∧
    withinRange (some rmin) (some rmax) rmax = true ∧
    withinRange (some rmin) (some rmax) (rmin - 1) = false ∧
    withinRange (some rmin) (some rmax) (rmax + 1) = false := by
  simp only [withinBounds, withinRange, Bool.and_eq_true, decide_eq_true_eq,
    Bool.and_eq_false_iff, decide_eq_false_iff_not]
  omega

/-- Witness for C5 at the concrete bounds 3..=25 and 1..=10. -/
theorem bounds_are_inclusive_witness :
    (1 ≤ 3 ∧ 3 ≤ 25 ∧ (1 : Int) ≤ 10) ∧
    (withinBounds (some 3) (some 25) 3 = true ∧
      withinBounds (some 3) (some 25) 25 = true ∧
      withinBounds (some 3) (some 25) (3 - 1) = false ∧
      withinBounds (some 3) (some 25) (25 + 1) = false ∧
      withinRange (some 1) (some 10) 1 = true ∧
      withinRange (some 1) (some 10) 10 = true ∧
      withinRange (some 1) (some 10) (1 - 1) = false ∧
      withinRange (some 1) (some 10) (10 + 1) = false) :=
  ⟨⟨by decide, by decide, by decide⟩,
    bounds_are_inclusive 3 25 1 10 (by decide) (by decide) (by decide)⟩

/-- C6: the `length` rule counts Unicode scalar values while
`byte_length` counts UTF-8 bytes: the one-scalar string "é" has length 1
and byte length 2, so it passes `length(min=1,max=1)` but fails
`byte_length(min=1,max=1)`; in general the scalar count never exceeds the
byte count. -/
theorem length_counts_scalars_not_bytes :
    (∀ s : String, strLength s ≤ byteLength s) ∧
    strLength "é" = 1 ∧
    byteLength "é" = 2 ∧
    lengthRule (some 1) (some 1) "é" = none ∧
    byteLengthRule (some 1) (some 1) "é" = some ⟨"byte length out of bounds"⟩ ∧
    byteLengthRule (some 2) (some 2) "é" = none :=
  ⟨strLength_le_byteLength, rfl, rfl, rfl, rfl, rfl⟩

/-- C7: for a sequence field with its own rules and an `inner` rule set,
the own rules apply once to the container as a whole, the inner rules
apply to each element at its index, the indexed children are exactly the
elements failing the inner rules under their correct indices, and their
number equals the number of failing elements. -/
theorem inner_rules_apply_per_element :
    (∀ (α : Type) (ownRules : List (Rule (List α)))
        (innerRules : List (Rule α)) (xs : List α),
      (validateSeqField ownRules innerRules xs).1 = runRules ownRules xs ∧
      (validateSeqField ownRules innerRules xs).2
        = xs.enum.filterMap (fun e =>
            if (runRules innerRules e.2).isEmpty then none
            else some (e.1, Errors.simple (runRules innerRules e.2))) ∧
      (validateSeqField ownRules innerRules xs).2.length
        = xs.countP (fun x => !(runRules innerRules x).isEmpty)) ∧
    validateSeqField [lengthListRule (some 1) none] [asciiRule] ([] : List String)
      = ([⟨"length out of bounds"⟩], []) ∧
    validateSeqField [lengthListRule (some 1) none] [asciiRule] ["ok", "é"]
      = ([], [(1, Errors.simple [⟨"not ascii"⟩])]) := by
  refine ⟨?_, rfl, rfl⟩
  intro α ownRules innerRules xs
  refine ⟨rfl, ?_, ?_⟩
  · simpa [validateSeqField, List.enum] using validateInner_eq innerRules xs [] 0
  · simpa [validateSeqField] using validateInner_length innerRules xs [] 0

/-- C8: validation is a deterministic function of the value and the
context: two calls on the unchanged value and context produce
structurally identical outcomes and reports. -/
theorem repeated_validation_is_identical :
    ∀ (α γ : Type) (vi : γ → α → Errors) (ctx : γ) (v : α),
      (validateTwice vi ctx v).1 = (validateTwice vi ctx v).2 :=
  fun _ _ _ _ _ => rfl

/-- C9: a validation call leaves the value being validated and the
context object unchanged: the post-state equals the pre-state, field by
field. -/
theorem validation_never_mutates :
    ∀ (α γ : Type) (vi : γ → α → Errors) (s : CallState α γ),
      (validateCall vi s).1 = s ∧
      (validateCall vi s).1.value = s.value ∧
      (validateCall vi s).1.ctx = s.ctx :=
  fun _ _ _ _ => ⟨rfl, rfl, rfl⟩

/-- C10: the `matches(other)` rule passes when the field equals the other
field of the same composite and records one leaf error when it differs;
on an optional field an absent value produces no error. -/
theorem matches_rule_behaviour :
    (∀ (other : Option String),
        validateOptionalField false [matchesRule other] none = []) ∧
    (∀ (x : String),
        validateOptionalField false [matchesRule (some x)] (some x) = []) ∧
    (∀ (x y : String), x ≠ y →
        validateOptionalField false [matchesRule (some y)] (some x)
          = [⟨"does not match expected value"⟩]) ∧
    validateOptionalField false [matchesRule (some "a")] (some "a") = [] ∧
    validateOptionalField false [matchesRule (some "")] (some "😂")
      = [⟨"does not match expected value"⟩] := by
  refine ⟨fun other => rfl, ?_, ?_, ?_, ?_⟩
  · intro x
    simp [validateOptionalField, runRules, matchesRule]
  · intro x y hxy
    simp [validateOptionalField, runRules, matchesRule, SimpleBuilder.push,
      (Ne.symm hxy)]
  · simp [validateOptionalField, runRules, matchesRule]
  · simp [validateOptionalField, runRules, matchesRule, SimpleBuilder.push]

/-- Witness for C10 at the concrete differing inputs from the tests. -/
theorem matches_rule_behaviour_witness :
    "😂" ≠ "" ∧
    validateOptionalField false [matchesRule (some "")] (some "😂")
      = [⟨"does not match expected value"⟩] :=
  ⟨by decide, matches_rule_behaviour.2.2.1 "😂" "" (by decide)⟩

end Garde
